import Mathlib

/-!
# Verification of the timeline marker/cluster reconciliation layer

Shallow embedding of src/client/src/app/[site]/globe/hooks/useTimelineLayer.ts.

Modelling conventions:
* JS numbers that carry coordinates are modelled as rationals (`ℚ`); the code
  never does anything float-specific with them (`round(x, 4)` is exact here).
* A nullable JS number is `Option ℚ`; JS truthiness of such a value
  (used by `s.lat && s.lon` and `!zoom`) is `numTruthy`: `null`/`undefined`
  and `0` are falsy.
* The `markersMap` JS `Map` is an association list `Pool` ordered by insertion;
  `Map.get` is `plookup`, `Map.set` is `setPool` (replace in place or append).
* Asynchronous `getClusterLeaves` callbacks are modelled by an environment
  `Env : Nat → LeafResult` giving each cluster id its eventual response, and by
  an explicit small-step pass machine (`PassStep`) whose `resolve` steps stand
  for callback resolutions and whose `apply` step is the code after
  Promise.all.
-/

namespace Timeline

/-- lodash's round(x, 4) as used at lines 352/412: Math.round(x · 10⁴) / 10⁴,
with JS Math.round being floor(t + 1/2). -/
def round4 (x : ℚ) : ℚ := (Int.floor (x * 10000 + 1/2) : ℚ) / 10000

/-- JS truthiness of a nullable number: null/undefined and 0 are falsy. -/
def numTruthy : Option ℚ → Bool
  | none => false
  | some x => x != 0

/-- A session record, restricted to the fields the reconciler reads.
lat/lon are nullable (spec §3); the rest of the record is display-only. -/
structure Session where
  session_id : String
  lat : Option ℚ
  lon : Option ℚ
  user_id : String
  deriving DecidableEq

/-- `s.lat && s.lon` (lines 346 and 407): both coordinates truthy. -/
def hasCoords (s : Session) : Bool := numTruthy s.lat && numTruthy s.lon

/-- Properties carried by a feature produced by the geojson source:
either the original session object (unclustered point) or the synthetic
cluster properties (cluster: true, cluster_id, point_count). -/
inductive FProps where
  | point (s : Session)
  | cluster (cluster_id : Nat) (point_count : Nat)
  deriving DecidableEq

/-- A geojson feature as seen by updateMarkers: possibly-null properties and
a geometry coordinate pair (lng, lat). -/
structure Feature where
  properties : Option FProps
  coord : ℚ × ℚ
  deriving DecidableEq

/-- A marker in the pool: its current position (mutable via setLngLat), the
coordinate captured by its click-handler closure when it was created
(lines 441/467/573), and the session object captured by that closure. -/
structure Marker where
  pos : ℚ × ℚ
  createdAt : ℚ × ℚ
  session : Session
  deriving DecidableEq

/-- markersMapRef.current: a JS Map from session id to marker entry,
ordered by insertion. -/
abbrev Pool := List (String × Marker)

/-- Map.get -/
def plookup (id : String) : Pool → Option Marker
  | [] => none
  | e :: rest => if e.1 = id then some e.2 else plookup id rest

/-- Map.set: replace the entry in place if the key exists, else append. -/
def setPool (p : Pool) (id : String) (m : Marker) : Pool :=
  match p with
  | [] => [(id, m)]
  | e :: rest => if e.1 = id then (id, m) :: rest else e :: setPool rest id m

/-- Map.keys (as a list). -/
def keys (p : Pool) : List String := p.map Prod.fst

/-- The session id a feature contributes to currentSessionIds (line 418):
`f.properties?.session_id` filtered by JS `Boolean` (so a cluster feature,
null properties, or an empty-string id contribute nothing). -/
def idOf (f : Feature) : Option String :=
  match f.properties with
  | some (FProps.point s) => if s.session_id = "" then none else some s.session_id
  | _ => none

/-- `new Set(unclusteredFeatures.map(f => f.properties?.session_id).filter(Boolean))`
(lines 418-420), as a list whose membership is the Set's. -/
def sessionIdsOf (fs : List Feature) : List String := fs.filterMap idOf

/-- The removal pass (lines 423-431): destroy and evict every marker whose id
is not in the current id set. -/
def removalPass (p : Pool) (ids : List String) : Pool :=
  p.filter (fun e => decide (e.1 ∈ ids))

/-- One iteration of the upsert pass (lines 434-598): skip features without a
truthy session id; update an existing marker's position only when it changed;
otherwise create a new marker (its click closure capturing the session and the
creation coordinate) and insert it. -/
def upsertOne (p : Pool) (f : Feature) : Pool :=
  match f.properties with
  | some (FProps.point s) =>
    if s.session_id = "" then p
    else
      match plookup s.session_id p with
      | some m =>
        if m.pos ≠ f.coord then setPool p s.session_id { m with pos := f.coord }
        else p
      | none =>
        setPool p s.session_id { pos := f.coord, createdAt := f.coord, session := s }
  | _ => p

/-- The synchronous diff-and-apply part of updateMarkers (lines 417-598):
removal pass against the current id set, then the upsert pass over all
unclustered features. -/
def applyDiff (p : Pool) (fs : List Feature) : Pool :=
  fs.foldl upsertOne (removalPass p (sessionIdsOf fs))

/-- The point feature built for a session with truthy coordinates
(lines 345-354 and 406-414): geometry [round(lon,4), round(lat,4)]. -/
def mkFeature (s : Session) : Feature :=
  ⟨some (FProps.point s), (round4 (s.lon.getD 0), round4 (s.lat.getD 0))⟩

/-- `activeSessions.filter(s => s.lat && s.lon).map(...)`: the point-feature
collection fed to the source and, when clustering is off, to updateMarkers. -/
def sessionFeatures (sessions : List Session) : List Feature :=
  (sessions.filter hasCoords).map mkFeature

/-- Line 322: clusters are shown iff more than 500 active sessions. -/
def shouldShowClusters (sessions : List Session) : Bool :=
  sessions.length > 500

/-! ## The clustered branch of updateMarkers (lines 363-403) -/

/-- The small clusters for which a getClusterLeaves fetch is issued
(lines 382-397): cluster features whose point_count is truthy and < 10.
The pair carries (cluster_id, point_count). -/
def smallClustersOf (fs : List Feature) : List (Nat × Nat) :=
  fs.filterMap (fun f =>
    match f.properties with
    | some (FProps.cluster cid pc) => if pc ≠ 0 ∧ pc < 10 then some (cid, pc) else none
    | _ => none)

/-- The features pushed synchronously into unclusteredFeatures
(lines 376-381): non-null properties with a falsy `cluster` flag. -/
def pointFeaturesOf (fs : List Feature) : List Feature :=
  fs.filter (fun f =>
    match f.properties with
    | some (FProps.point _) => true
    | _ => false)

/-- The eventual response of a getClusterLeaves callback: an error (or null
leaves), or a list of leaf features. -/
inductive LeafResult where
  | err
  | ok (leaves : List Feature)

/-- The asynchronous environment: what each cluster id's leaf fetch
eventually reports. -/
def Env := Nat → LeafResult

/-- What one cluster fetch contributes to unclusteredFeatures (lines 390-392):
nothing on error, its leaves on success. No retry, no exception. -/
def resultOf (env : Env) (c : Nat × Nat) : List Feature :=
  match env c.1 with
  | LeafResult.err => []
  | LeafResult.ok leaves => leaves

/-- The complete unclusteredFeatures list once every fetch issued by the pass
has resolved: the synchronous pushes followed by all leaf contributions. -/
def fullCollected (env : Env) (fs : List Feature) : List Feature :=
  pointFeaturesOf fs ++ (smallClustersOf fs).flatMap (resultOf env)

/-- updateMarkers in the clustered branch, run to completion (all leaf fetches
resolved, then the diff applied). -/
def updateMarkersClustered (env : Env) (fs : List Feature) (p : Pool) : Pool :=
  applyDiff p (fullCollected env fs)

/-- updateMarkers in the unclustered branch (lines 404-415 then 417-598). -/
def updateMarkersUnclustered (sessions : List Session) (p : Pool) : Pool :=
  applyDiff p (sessionFeatures sessions)

/-- A synthetic cluster feature. -/
def mkClusterFeature (cid pc : Nat) (q : ℚ × ℚ) : Feature :=
  ⟨some (FProps.cluster cid pc), q⟩

/-- The cluster-circle layer filter (lines 207 and 219):
has point_count and point_count ≥ 10. -/
def clusterCircleFilter (f : Feature) : Bool :=
  match f.properties with
  | some (FProps.cluster _ pc) => 10 ≤ pc
  | _ => false

/-! ## The cluster-click handler (lines 252-272) -/

/-- The map camera, as far as easeTo is concerned. -/
structure Camera where
  center : ℚ × ℚ
  zoom : ℚ
  deriving DecidableEq

/-- handleClusterClick: take the first rendered cluster feature under the
click; query its expansion zoom; on error, a missing cluster id, or a falsy
zoom, do nothing; otherwise ease the camera to the cluster at that zoom.
`zoomOf` maps a cluster id to its expansion-zoom response (none = error). -/
def handleClusterClick (rendered : List Feature) (zoomOf : Nat → Option ℚ)
    (cam : Camera) : Camera :=
  match rendered with
  | [] => cam
  | f :: _ =>
    match f.properties with
    | some (FProps.cluster cid _) =>
      match zoomOf cid with
      | none => cam
      | some z => if z = 0 then cam else { center := f.coord, zoom := z }
    | _ => cam

/-! ## The tooltip / marker state machine

State shared by one mounted hook instance: the marker pool, the id recorded in
openTooltipSessionIdRef (the popup is open exactly when it is set — every code
path that removes the popup also nulls the ref and vice versa), and the popup's
last position. -/

structure TLState where
  pool : Pool
  openId : Option String
  popupPos : ℚ × ℚ
  deriving DecidableEq

/-- The toggleTooltip closure of a marker (lines 471-586), with `m.session`
and `m.createdAt` the session object and coordinate it captured at creation:
clicking the marker whose tooltip is open closes it; otherwise any open
tooltip is replaced by this marker's, positioned at the captured coordinate. -/
def toggleTooltip (st : TLState) (m : Marker) : TLState :=
  if st.openId = some m.session.session_id then { st with openId := none }
  else { st with openId := some m.session.session_id
               , popupPos := m.createdAt }

/-- Clicking the marker bound to `id`: dispatches to its toggleTooltip
closure. (A marker absent from the pool has no element on the map, so the
no-op branch is unreachable in the UI.) -/
def clickMarker (st : TLState) (id : String) : TLState :=
  match plookup id st.pool with
  | none => st
  | some m => toggleTooltip st m

/-- The events that mutate the shared state:
* `reconcile`: a completed updateMarkers pass applies its diff (pool only;
  the popup is untouched — lines 417-598 never reference popupRef);
* `click`: a marker click runs its toggleTooltip closure;
* `timeChange`: the currentTime effect (lines 165-170) closes the popup;
* `mapClick`: the map-background click handler (lines 610-615) closes it;
* `detail`: the View Details button (lines 579-584) closes it;
* `teardown`: the effect cleanup / non-timeline branch (lines 302-319,
  620-631) destroys every marker and clears the pool, popup untouched. -/
inductive TLStep : TLState → TLState → Prop
  | reconcile (st : TLState) (fs : List Feature) :
      TLStep st { st with pool := applyDiff st.pool fs }
  | click (st : TLState) (id : String) : TLStep st (clickMarker st id)
  | timeChange (st : TLState) : TLStep st { st with openId := none }
  | mapClick (st : TLState) : TLStep st { st with openId := none }
  | detail (st : TLState) : TLStep st { st with openId := none }
  | teardown (st : TLState) : TLStep st { st with pool := [] }

/-- The state of a freshly mounted hook: empty pool, no tooltip. -/
def initState : TLState := ⟨[], none, (0, 0)⟩

/-- States reachable by the running hook. -/
def Reachable (st : TLState) : Prop :=
  Relation.ReflTransGen TLStep initState st

/-! ## Effect re-run (React dependency change)

The effect at lines 295-632 depends on [activeSessions, mapLoaded, map,
mapView]; shouldShowClusters is derived from activeSessions inside the effect
body and is fixed in each updateMarkers closure, so the clustering mode can
only flip across an effect re-run. React runs the previous effect's cleanup
(lines 620-631) before the new body. -/

/-- The effect cleanup (lines 620-631): cleanup() and marker.remove() for
every pooled marker, then markersMap.clear(); the popup is not touched. -/
def teardownEffect (st : TLState) : TLState := { st with pool := [] }

/-- The non-timeline branch of the effect body (lines 302-319): hide the
cluster layers, destroy all markers, clear the pool. -/
def nonTimelineBody (st : TLState) : TLState := { st with pool := [] }

/-- One dependency-change cycle: previous cleanup, then the new body (which
either bails out of timeline mode or runs its first updateMarkers pass to
completion on `fs`). -/
def effectRerun (st : TLState) (mapView : String) (fs : List Feature) : TLState :=
  let st1 := teardownEffect st
  if mapView ≠ "timeline" then nonTimelineBody st1
  else { st1 with pool := applyDiff st1.pool fs }

/-! ## The in-flight pass machine (lines 360-403 + 417-598)

One updateMarkers invocation in the clustered branch: it issues its leaf
fetches, suspends, and only after all of them resolve applies the diff. -/

/-- The local state of one suspended updateMarkers invocation together with
the shared pool it will eventually mutate. -/
structure PassState where
  pending : List (Nat × Nat)
  collected : List Feature
  pool : Pool
  applied : Bool
  deriving DecidableEq

/-- The pass state right after the synchronous part of the clustered branch:
all fetches issued, the synchronous features pushed, nothing applied. -/
def initPass (fs : List Feature) (p : Pool) : PassState :=
  ⟨smallClustersOf fs, pointFeaturesOf fs, p, false⟩

/-- Micro-steps of one pass: any pending callback may resolve next (the
resolution order is not controlled), appending its contribution to the local
unclusteredFeatures array while the pool stays untouched; and the code after
Promise.all — enabled only once no fetch is pending — applies the full diff
exactly once. -/
inductive PassStep (env : Env) : PassState → PassState → Prop
  | resolve (s : PassState) (l1 l2 : List (Nat × Nat)) (c : Nat × Nat)
      (hpend : s.pending = l1 ++ c :: l2) :
      PassStep env s ⟨l1 ++ l2, s.collected ++ resultOf env c, s.pool, s.applied⟩
  | apply (s : PassState) (hp : s.pending = []) (hna : s.applied = false) :
      PassStep env s ⟨[], s.collected, applyDiff s.pool s.collected, true⟩

/-- Micro-steps of a pass interleaved with a component teardown, which
synchronously clears the shared pool (lines 620-631) but does not touch the
pass's suspended continuation. -/
inductive TearStep (env : Env) : PassState → PassState → Prop
  | pass (s s' : PassState) (h : PassStep env s s') : TearStep env s s'
  | teardown (s : PassState) :
      TearStep env s ⟨s.pending, s.collected, [], s.applied⟩

/-! ## Lemmas about the pool operations -/

theorem plookup_isSome_iff_mem_keys (id : String) (p : Pool) :
    (plookup id p).isSome = true ↔ id ∈ keys p := by
  induction p with
  | nil => simp [plookup, keys]
  | cons e rest ih =>
    by_cases h : e.1 = id
    · simp [plookup, keys, h]
    · simp [plookup, keys, h, ih, Ne.symm h]

theorem mem_keys_setPool (p : Pool) (id : String) (m : Marker) (a : String) :
    a ∈ keys (setPool p id m) ↔ a ∈ keys p ∨ a = id := by
  induction p with
  | nil => simp [setPool, keys]
  | cons e rest ih =>
    by_cases h : e.1 = id
    · simp only [setPool, if_pos h, keys, List.map_cons, List.mem_cons]
      rw [h]
      tauto
    · simp only [setPool, if_neg h, keys, List.map_cons, List.mem_cons]
      simp only [keys] at ih
      rw [ih]
      tauto

theorem nodup_keys_setPool (p : Pool) (id : String) (m : Marker)
    (hnd : (keys p).Nodup) : (keys (setPool p id m)).Nodup := by
  induction p with
  | nil => simp [setPool, keys]
  | cons e rest ih =>
    simp only [keys, List.map_cons, List.nodup_cons] at hnd
    by_cases h : e.1 = id
    · simp only [setPool, if_pos h, keys, List.map_cons, List.nodup_cons]
      rw [← h]
      exact hnd
    · simp only [setPool, if_neg h, keys, List.map_cons, List.nodup_cons]
      refine ⟨fun hmem => ?_, ih hnd.2⟩
      rcases (mem_keys_setPool rest id m e.1).1 hmem with h1 | h1
      · exact hnd.1 h1
      · exact h h1

theorem plookup_setPool_self (p : Pool) (id : String) (m : Marker) :
    plookup id (setPool p id m) = some m := by
  induction p with
  | nil => simp [setPool, plookup]
  | cons e rest ih =>
    by_cases h : e.1 = id
    · simp [setPool, h, plookup]
    · simp [setPool, h, plookup, ih]

theorem plookup_setPool_ne (p : Pool) (id : String) (m : Marker) (a : String)
    (h : a ≠ id) : plookup a (setPool p id m) = plookup a p := by
  have hid : ¬ id = a := fun hh => h hh.symm
  induction p with
  | nil => simp [setPool, plookup, hid]
  | cons e rest ih =>
    by_cases he : e.1 = id
    · have h1 : ¬ e.1 = a := by rw [he]; exact hid
      simp only [setPool, if_pos he, plookup]
      rw [if_neg hid, if_neg h1]
    · by_cases ha : e.1 = a
      · simp only [setPool, if_neg he, plookup, if_pos ha]
      · simp only [setPool, if_neg he, plookup, if_neg ha]
        exact ih

theorem mem_keys_removalPass (p : Pool) (ids : List String) (a : String) :
    a ∈ keys (removalPass p ids) ↔ a ∈ keys p ∧ a ∈ ids := by
  simp only [removalPass, keys, List.mem_map, List.mem_filter]
  constructor
  · rintro ⟨e, ⟨hep, hq⟩, rfl⟩
    exact ⟨⟨e, hep, rfl⟩, by simpa using hq⟩
  · rintro ⟨⟨e, hep, rfl⟩, hids⟩
    exact ⟨e, ⟨hep, by simpa using hids⟩, rfl⟩

theorem nodup_keys_removalPass (p : Pool) (ids : List String)
    (h : (keys p).Nodup) : (keys (removalPass p ids)).Nodup :=
  h.sublist ((List.filter_sublist p).map Prod.fst)

theorem plookup_removalPass_of_mem (p : Pool) (ids : List String) (a : String)
    (ha : a ∈ ids) : plookup a (removalPass p ids) = plookup a p := by
  induction p with
  | nil => simp [removalPass, plookup]
  | cons e rest ih =>
    by_cases he : e.1 ∈ ids
    · by_cases hea : e.1 = a
      · simp [removalPass, List.filter_cons, plookup, he, hea, ha]
      · simp only [removalPass, List.filter_cons] at ih ⊢
        simp [plookup, he, hea, ih]
    · have hea : ¬ e.1 = a := by
        intro hh
        exact he (by rw [hh]; exact ha)
      simp only [removalPass, List.filter_cons] at ih ⊢
      simp [plookup, he, hea, ih]

theorem upsertOne_of_idOf_none (p : Pool) (f : Feature) (h : idOf f = none) :
    upsertOne p f = p := by
  cases hp : f.properties with
  | none => simp [upsertOne, h, hp]
  | some fp =>
    cases fp with
    | point s =>
      have hs : s.session_id = "" := by
        by_contra hs
        simp [idOf, hp, hs] at h
      simp [upsertOne, hp, hs]
    | cluster cid pc => simp [upsertOne, h, hp]

theorem idOf_eq_some_elim (f : Feature) (id : String) (h : idOf f = some id) :
    ∃ s, f.properties = some (FProps.point s) ∧ s.session_id = id ∧ ¬ id = "" := by
  cases hp : f.properties with
  | none => simp [idOf, hp] at h
  | some fp =>
    cases fp with
    | cluster cid pc => simp [idOf, hp] at h
    | point s =>
      by_cases hs : s.session_id = ""
      · simp [idOf, hp, hs] at h
      · simp only [idOf, hp, if_neg hs] at h
        obtain rfl : s.session_id = id := Option.some_inj.1 h
        exact ⟨s, rfl, rfl, hs⟩

theorem upsertOne_existing (p : Pool) (f : Feature) (s : Session) (m : Marker)
    (hp : f.properties = some (FProps.point s)) (hs : ¬ s.session_id = "")
    (hm : plookup s.session_id p = some m) :
    upsertOne p f =
      if m.pos ≠ f.coord then setPool p s.session_id { m with pos := f.coord }
      else p := by
  simp only [upsertOne, hp, if_neg hs, hm]

theorem upsertOne_new (p : Pool) (f : Feature) (s : Session)
    (hp : f.properties = some (FProps.point s)) (hs : ¬ s.session_id = "")
    (hm : plookup s.session_id p = none) :
    upsertOne p f =
      setPool p s.session_id { pos := f.coord, createdAt := f.coord, session := s } := by
  simp only [upsertOne, hp, if_neg hs, hm]

theorem mem_keys_upsertOne (p : Pool) (f : Feature) (a : String) :
    a ∈ keys (upsertOne p f) ↔ a ∈ keys p ∨ idOf f = some a := by
  cases hid : idOf f with
  | none => rw [upsertOne_of_idOf_none p f hid]; simp
  | some id =>
    obtain ⟨s, hp, hs, hne⟩ := idOf_eq_some_elim f id hid
    subst hs
    simp only [Option.some_inj]
    cases hm : plookup s.session_id p with
    | some m =>
      have hmem : s.session_id ∈ keys p := by
        rw [← plookup_isSome_iff_mem_keys, hm]
        rfl
      rw [upsertOne_existing p f s m hp hne hm]
      by_cases hpos : m.pos ≠ f.coord
      · rw [if_pos hpos, mem_keys_setPool]
        constructor
        · rintro (h1 | rfl)
          · exact Or.inl h1
          · exact Or.inr rfl
        · rintro (h1 | rfl)
          · exact Or.inl h1
          · exact Or.inr rfl
      · rw [if_neg hpos]
        constructor
        · exact Or.inl
        · rintro (h1 | rfl)
          · exact h1
          · exact hmem
    | none =>
      rw [upsertOne_new p f s hp hne hm, mem_keys_setPool]
      constructor
      · rintro (h1 | rfl)
        · exact Or.inl h1
        · exact Or.inr rfl
      · rintro (h1 | rfl)
        · exact Or.inl h1
        · exact Or.inr rfl

theorem nodup_keys_upsertOne (p : Pool) (f : Feature)
    (hnd : (keys p).Nodup) : (keys (upsertOne p f)).Nodup := by
  cases hid : idOf f with
  | none => rw [upsertOne_of_idOf_none p f hid]; exact hnd
  | some id =>
    obtain ⟨s, hp, hs, hne⟩ := idOf_eq_some_elim f id hid
    subst hs
    cases hm : plookup s.session_id p with
    | some m =>
      rw [upsertOne_existing p f s m hp hne hm]
      by_cases hpos : m.pos ≠ f.coord
      · rw [if_pos hpos]
        exact nodup_keys_setPool p s.session_id _ hnd
      · rw [if_neg hpos]
        exact hnd
    | none =>
      rw [upsertOne_new p f s hp hne hm]
      exact nodup_keys_setPool p s.session_id _ hnd

theorem plookup_upsertOne_ne (p : Pool) (f : Feature) (a : String)
    (h : ¬ idOf f = some a) : plookup a (upsertOne p f) = plookup a p := by
  cases hid : idOf f with
  | none => rw [upsertOne_of_idOf_none p f hid]
  | some id =>
    have hne : a ≠ id := by
      intro hh
      exact h (by rw [hid, hh])
    obtain ⟨s, hp, hs, hne2⟩ := idOf_eq_some_elim f id hid
    subst hs
    cases hm : plookup s.session_id p with
    | some m =>
      rw [upsertOne_existing p f s m hp hne2 hm]
      by_cases hpos : m.pos ≠ f.coord
      · rw [if_pos hpos, plookup_setPool_ne p s.session_id _ a hne]
      · rw [if_neg hpos]
    | none =>
      rw [upsertOne_new p f s hp hne2 hm,
        plookup_setPool_ne p s.session_id _ a hne]

theorem plookup_upsertOne_self (p : Pool) (f : Feature) (id : String)
    (hid : idOf f = some id) :
    ∃ m, plookup id (upsertOne p f) = some m ∧ m.pos = f.coord := by
  obtain ⟨s, hp, hs, hne⟩ := idOf_eq_some_elim f id hid
  subst hs
  cases hm : plookup s.session_id p with
  | some m =>
    rw [upsertOne_existing p f s m hp hne hm]
    by_cases hpos : m.pos ≠ f.coord
    · rw [if_pos hpos]
      exact ⟨_, plookup_setPool_self p s.session_id _, rfl⟩
    · rw [if_neg hpos]
      exact ⟨m, hm, not_not.1 hpos⟩
  | none =>
    rw [upsertOne_new p f s hp hne hm]
    exact ⟨_, plookup_setPool_self p s.session_id _, rfl⟩

theorem mem_keys_foldl_upsertOne (fs : List Feature) (p : Pool) (a : String) :
    a ∈ keys (fs.foldl upsertOne p) ↔ a ∈ keys p ∨ a ∈ sessionIdsOf fs := by
  induction fs generalizing p with
  | nil => simp [sessionIdsOf]
  | cons f fs ih =>
    rw [List.foldl_cons, ih, mem_keys_upsertOne]
    cases hid : idOf f with
    | none => simp [sessionIdsOf, List.filterMap_cons, hid]
    | some id =>
      simp only [sessionIdsOf, List.filterMap_cons, hid, List.mem_cons,
        Option.some_inj]
      constructor
      · rintro ((h1 | rfl) | h1)
        · exact Or.inl h1
        · exact Or.inr (Or.inl rfl)
        · exact Or.inr (Or.inr h1)
      · rintro (h1 | (rfl | h1))
        · exact Or.inl (Or.inl h1)
        · exact Or.inl (Or.inr rfl)
        · exact Or.inr h1

theorem nodup_keys_foldl_upsertOne (fs : List Feature) (p : Pool)
    (hnd : (keys p).Nodup) : (keys (fs.foldl upsertOne p)).Nodup := by
  induction fs generalizing p with
  | nil => exact hnd
  | cons f fs ih => exact ih _ (nodup_keys_upsertOne p f hnd)

theorem plookup_foldl_upsertOne_of_not_mem (fs : List Feature) (p : Pool)
    (a : String) (h : a ∉ sessionIdsOf fs) :
    plookup a (fs.foldl upsertOne p) = plookup a p := by
  induction fs generalizing p with
  | nil => rfl
  | cons f fs ih =>
    have h1 : a ∉ sessionIdsOf fs := by
      intro hmem
      refine h ?_
      simp only [sessionIdsOf, List.filterMap_cons]
      cases hid : idOf f
      · exact hmem
      · exact List.mem_cons_of_mem _ hmem
    have h2 : ¬ idOf f = some a := by
      intro hh
      refine h ?_
      simp only [sessionIdsOf, List.filterMap_cons, hh]
      exact List.mem_cons_self _ _
    rw [List.foldl_cons, ih _ h1, plookup_upsertOne_ne p f a h2]

theorem plookup_foldl_upsertOne_pos :
    ∀ (fs : List Feature) (p : Pool) (f : Feature) (id : String),
      f ∈ fs → idOf f = some id → (sessionIdsOf fs).Nodup →
      ∃ m, plookup id (fs.foldl upsertOne p) = some m ∧ m.pos = f.coord := by
  intro fs
  induction fs with
  | nil =>
    intro p f id hf
    cases hf
  | cons g fs ih =>
    intro p f id hf hid hnd
    rcases List.mem_cons.1 hf with rfl | hf'
    · have hnotin : id ∉ sessionIdsOf fs := by
        simp only [sessionIdsOf, List.filterMap_cons, hid, List.nodup_cons] at hnd
        exact hnd.1
      rw [List.foldl_cons, plookup_foldl_upsertOne_of_not_mem fs _ id hnotin]
      exact plookup_upsertOne_self p f id hid
    · have hnd' : (sessionIdsOf fs).Nodup := by
        simp only [sessionIdsOf, List.filterMap_cons] at hnd
        cases hg : idOf g
        · rw [hg] at hnd
          exact hnd
        · rw [hg] at hnd
          exact (List.nodup_cons.1 hnd).2
      rw [List.foldl_cons]
      exact ih (upsertOne p g) f id hf' hid hnd'

theorem mem_keys_applyDiff (p : Pool) (fs : List Feature) (a : String) :
    a ∈ keys (applyDiff p fs) ↔ a ∈ sessionIdsOf fs := by
  unfold applyDiff
  rw [mem_keys_foldl_upsertOne, mem_keys_removalPass]
  tauto

theorem nodup_keys_applyDiff (p : Pool) (fs : List Feature)
    (hnd : (keys p).Nodup) : (keys (applyDiff p fs)).Nodup :=
  nodup_keys_foldl_upsertOne fs _ (nodup_keys_removalPass p _ hnd)

theorem plookup_applyDiff_pos (p : Pool) (fs : List Feature) (f : Feature)
    (id : String) (hf : f ∈ fs) (hid : idOf f = some id)
    (hnd : (sessionIdsOf fs).Nodup) :
    ∃ m, plookup id (applyDiff p fs) = some m ∧ m.pos = f.coord :=
  plookup_foldl_upsertOne_pos fs _ f id hf hid hnd

theorem mem_sessionIdsOf_sessionFeatures (sessions : List Session) (a : String) :
    a ∈ sessionIdsOf (sessionFeatures sessions) ↔
      ∃ s, s ∈ sessions ∧ hasCoords s = true ∧ s.session_id = a ∧ ¬ a = "" := by
  simp only [sessionIdsOf, sessionFeatures, List.filterMap_map, List.mem_filterMap,
    List.mem_filter, Function.comp]
  constructor
  · rintro ⟨s, ⟨hmem, hco⟩, hof⟩
    simp only [idOf, mkFeature] at hof
    by_cases hs : s.session_id = ""
    · rw [if_pos hs] at hof
      cases hof
    · rw [if_neg hs] at hof
      obtain rfl := Option.some_inj.1 hof
      exact ⟨s, hmem, hco, rfl, hs⟩
  · rintro ⟨s, hmem, hco, rfl, hs⟩
    refine ⟨s, ⟨hmem, hco⟩, ?_⟩
    simp [idOf, mkFeature, hs]

/-! ## Sample data used by witnesses and counterexamples -/

/-- A session at (lat 1, lon 2). -/
def sampleA : Session := ⟨"a", some 1, some 2, "ua"⟩

/-- A second session at (lat 3, lon 4). -/
def sampleB : Session := ⟨"b", some 3, some 4, "ub"⟩

/-- A session whose latitude is present but equal to 0. -/
def sampleZeroLat : Session := ⟨"z", some 0, some 10, "uz"⟩

/-- A session whose longitude needs more than 4 decimal places. -/
def sampleFine : Session := ⟨"s4", some 1, some (20001/20000), "uf"⟩

/-- An environment in which every leaf fetch errors. -/
def envErr : Env := fun _ => LeafResult.err

/-- An environment in which cluster 1 resolves to the single leaf for
sampleB and every other fetch errors. -/
def envB : Env := fun cid =>
  if cid = 1 then LeafResult.ok [mkFeature sampleB] else LeafResult.err

/-! ## Claim theorems -/

/-- C1: after a reconciliation pass (updateMarkers) completes with no pending
asynchronous leaf fetches, the marker pool's key set equals exactly the set of
session identifiers of the visible unclustered features (unclustered features
plus the expanded leaves of small clusters) — in both the clustered and the
unclustered branch — and each identifier present has exactly one marker
(pool keys remain duplicate-free). -/
theorem c1_pool_keys_eq_visible_ids (env : Env) (fs : List Feature)
    (sessions : List Session) (p : Pool) (hnd : (keys p).Nodup) :
    ((keys (updateMarkersClustered env fs p)).Nodup ∧
      ∀ id, id ∈ keys (updateMarkersClustered env fs p) ↔
        id ∈ sessionIdsOf (fullCollected env fs)) ∧
    ((keys (updateMarkersUnclustered sessions p)).Nodup ∧
      ∀ id, id ∈ keys (updateMarkersUnclustered sessions p) ↔
        id ∈ sessionIdsOf (sessionFeatures sessions)) :=
  ⟨⟨nodup_keys_applyDiff _ _ hnd, fun id => mem_keys_applyDiff _ _ id⟩,
    ⟨nodup_keys_applyDiff _ _ hnd, fun id => mem_keys_applyDiff _ _ id⟩⟩

/-- Witness for C1 at a concrete input: one session, empty initial pool. -/
theorem c1_pool_keys_eq_visible_ids_witness :
    (keys (updateMarkersUnclustered [sampleA] [])).Nodup ∧
      ("a" ∈ keys (updateMarkersUnclustered [sampleA] []) ↔
        "a" ∈ sessionIdsOf (sessionFeatures [sampleA])) :=
  ⟨(c1_pool_keys_eq_visible_ids envErr [] [sampleA] [] List.nodup_nil).2.1,
    (c1_pool_keys_eq_visible_ids envErr [] [sampleA] [] List.nodup_nil).2.2 "a"⟩

/-- C3 counterexample: sampleZeroLat has both coordinates present (non-null),
with latitude 0, yet it is excluded from the point-feature collection and no
marker is created for it: the filter uses JS truthiness, not a null check. -/
theorem c3_counterexample_zero_latitude :
    ¬ sampleZeroLat.lat = none ∧ ¬ sampleZeroLat.lon = none ∧
    sessionFeatures [sampleZeroLat] = [] ∧
    keys (updateMarkersUnclustered [sampleZeroLat] []) = [] := by
  refine ⟨by decide, by decide, rfl, rfl⟩

/-- C3 amended: a session is included in the point-feature collection iff both
coordinates are truthy — present (non-null) and nonzero — and, for a session
with a distinct nonempty identifier, its marker exists after an unclustered
pass iff both coordinates are truthy. Sessions with a null OR ZERO latitude
or longitude are excluded. -/
theorem c3_amended_truthy_coordinate_filter (sessions : List Session)
    (s : Session) (p : Pool) (hmem : s ∈ sessions)
    (hnd : (sessions.map Session.session_id).Nodup)
    (hid : ¬ s.session_id = "") :
    (mkFeature s ∈ sessionFeatures sessions ↔ hasCoords s = true) ∧
    (hasCoords s = true ↔
      ((∃ x, s.lat = some x ∧ ¬ x = 0) ∧ (∃ y, s.lon = some y ∧ ¬ y = 0))) ∧
    ((plookup s.session_id (applyDiff p (sessionFeatures sessions))).isSome = true
      ↔ hasCoords s = true) := by
  refine ⟨?_, ?_, ?_⟩
  · constructor
    · intro hin
      simp only [sessionFeatures, List.mem_map] at hin
      obtain ⟨s', hs', heq⟩ := hin
      have : s' = s := by
        have h1 : FProps.point s' = FProps.point s := by
          have := congrArg Feature.properties heq
          simpa [mkFeature] using this
        cases h1
        rfl
      rw [← this]
      exact (List.mem_filter.1 hs').2
    · intro hco
      simp only [sessionFeatures, List.mem_map]
      exact ⟨s, List.mem_filter.2 ⟨hmem, hco⟩, rfl⟩
  · cases hlat : s.lat with
    | none => simp [hasCoords, numTruthy, hlat]
    | some x =>
      cases hlon : s.lon with
      | none => simp [hasCoords, numTruthy, hlat, hlon]
      | some y =>
        by_cases hx : x = 0 <;> by_cases hy : y = 0 <;>
          simp [hasCoords, numTruthy, hlat, hlon, hx, hy]
  · rw [plookup_isSome_iff_mem_keys, mem_keys_applyDiff,
      mem_sessionIdsOf_sessionFeatures]
    constructor
    · rintro ⟨s', hmem', hco', heq, -⟩
      have : s' = s := List.inj_on_of_nodup_map hnd hmem' hmem heq
      rw [← this]
      exact hco'
    · intro hco
      exact ⟨s, hmem, hco, rfl, hid⟩

/-- Witness for C3 amended at a concrete input. -/
theorem c3_amended_truthy_coordinate_filter_witness :
    (mkFeature sampleA ∈ sessionFeatures [sampleA, sampleZeroLat] ↔
      hasCoords sampleA = true) ∧
    (hasCoords sampleA = true ↔
      ((∃ x, sampleA.lat = some x ∧ ¬ x = 0) ∧
        (∃ y, sampleA.lon = some y ∧ ¬ y = 0))) ∧
    ((plookup "a" (applyDiff [] (sessionFeatures [sampleA, sampleZeroLat]))).isSome
      = true ↔ hasCoords sampleA = true) :=
  c3_amended_truthy_coordinate_filter [sampleA, sampleZeroLat] sampleA []
    (by decide) (by decide) (by decide)

theorem filterMap_sublist_map {α β : Type} (f : α → β) (g : α → Option β)
    (l : List α) (h : ∀ x, g x = none ∨ g x = some (f x)) :
    (l.filterMap g).Sublist (l.map f) := by
  induction l with
  | nil => simp
  | cons x l ih =>
    rw [List.filterMap_cons, List.map_cons]
    rcases h x with hx | hx
    · rw [hx]
      exact ih.cons _
    · rw [hx]
      exact ih.cons₂ _

/-- The ids produced by the session-derived feature collection are
duplicate-free whenever the session ids are. -/
theorem nodup_sessionIdsOf_sessionFeatures (sessions : List Session)
    (hnd : (sessions.map Session.session_id).Nodup) :
    (sessionIdsOf (sessionFeatures sessions)).Nodup := by
  have heq : sessionIdsOf (sessionFeatures sessions)
      = (sessions.filter hasCoords).filterMap
          (fun s' => if s'.session_id = "" then none else some s'.session_id) := by
    rw [sessionIdsOf, sessionFeatures, List.filterMap_map]
    congr 1
  have h1 : ((sessions.filter hasCoords).filterMap
      (fun s' => if s'.session_id = "" then none else some s'.session_id)).Sublist
        ((sessions.filter hasCoords).map Session.session_id) := by
    refine filterMap_sublist_map Session.session_id _ _ ?_
    intro x
    by_cases hx : x.session_id = ""
    · exact Or.inl (if_pos hx)
    · exact Or.inr (if_neg hx)
  have h2 : ((sessions.filter hasCoords).map Session.session_id).Sublist
      (sessions.map Session.session_id) :=
    (List.filter_sublist sessions).map _
  rw [heq]
  exact hnd.sublist (h1.trans h2)

/-- C4 counterexample: for sampleFine (lon = 1.00005) the marker created by a
reconciliation pass sits at the 4-decimal-rounded coordinate (1.0001, 1), not
exactly at the session's coordinate (1.00005, 1). -/
theorem c4_counterexample_rounded_position :
    ∃ m, plookup "s4" (updateMarkersUnclustered [sampleFine] []) = some m ∧
      ¬ m.pos = (sampleFine.lon.getD 0, sampleFine.lat.getD 0) := by
  obtain ⟨m, hm, hpos⟩ :=
    plookup_applyDiff_pos [] (sessionFeatures [sampleFine])
      (mkFeature sampleFine) "s4"
      (by
        simp only [sessionFeatures, List.mem_map]
        refine ⟨sampleFine, List.mem_filter.2
          ⟨List.mem_singleton.2 rfl, ?_⟩, rfl⟩
        simp [hasCoords, numTruthy, sampleFine])
      (by simp [idOf, mkFeature, sampleFine])
      (nodup_sessionIdsOf_sessionFeatures [sampleFine] (by decide))
  refine ⟨m, hm, ?_⟩
  rw [hpos]
  intro hcontra
  have hx : round4 (sampleFine.lon.getD 0) = sampleFine.lon.getD 0 :=
    congrArg Prod.fst hcontra
  rw [show sampleFine.lon.getD 0 = 20001/20000 from rfl, round4] at hx
  norm_num at hx

/-- C4 amended: after every reconciliation pass over the session-derived
feature collection (session identifiers pairwise distinct), every session
with truthy coordinates and a nonempty identifier has its marker positioned
at its coordinate ROUNDED TO 4 DECIMAL PLACES, (round4 lon, round4 lat) —
not in general at the raw session coordinate. -/
theorem c4_amended_position_rounded (sessions : List Session) (p : Pool)
    (s : Session) (hmem : s ∈ sessions)
    (hnd : (sessions.map Session.session_id).Nodup)
    (hco : hasCoords s = true) (hid : ¬ s.session_id = "") :
    ∃ m, plookup s.session_id (updateMarkersUnclustered sessions p) = some m ∧
      m.pos = (round4 (s.lon.getD 0), round4 (s.lat.getD 0)) := by
  have hf : mkFeature s ∈ sessionFeatures sessions := by
    simp only [sessionFeatures, List.mem_map]
    exact ⟨s, List.mem_filter.2 ⟨hmem, hco⟩, rfl⟩
  have hidof : idOf (mkFeature s) = some s.session_id := by
    simp [idOf, mkFeature, hid]
  obtain ⟨m, hm, hpos⟩ :=
    plookup_applyDiff_pos p (sessionFeatures sessions) (mkFeature s)
      s.session_id hf hidof (nodup_sessionIdsOf_sessionFeatures sessions hnd)
  exact ⟨m, hm, by rw [hpos]; rfl⟩

/-- Witness for C4 amended at a concrete input. -/
theorem c4_amended_position_rounded_witness :
    ∃ m, plookup "s4" (updateMarkersUnclustered [sampleFine] []) = some m ∧
      m.pos = (round4 (sampleFine.lon.getD 0), round4 (sampleFine.lat.getD 0)) :=
  c4_amended_position_rounded [sampleFine] [] sampleFine
    (List.mem_singleton.2 rfl) (by decide)
    (by simp [hasCoords, numTruthy, sampleFine]) (by decide)

/-! ## Pool well-formedness: every entry's key is its captured session's id.
The upsert pass only ever inserts a marker under the id of the session its
click closure captures (line 596), so this is an invariant of the pool. -/

/-- Every pool entry is keyed by the session id its marker captured. -/
def PoolWF (p : Pool) : Prop := ∀ e ∈ p, e.2.session.session_id = e.1

theorem plookup_mem (p : Pool) (k : String) (m : Marker)
    (h : plookup k p = some m) : (k, m) ∈ p := by
  induction p with
  | nil => cases h
  | cons e rest ih =>
    by_cases he : e.1 = k
    · rw [plookup, if_pos he] at h
      obtain rfl := Option.some_inj.1 h
      have : (k, e.2) = e := by
        rw [← he]
      rw [this]
      exact List.mem_cons_self _ _
    · rw [plookup, if_neg he] at h
      exact List.mem_cons_of_mem _ (ih h)

theorem poolWF_setPool (p : Pool) (id : String) (m : Marker) (h : PoolWF p)
    (hm : m.session.session_id = id) : PoolWF (setPool p id m) := by
  induction p with
  | nil =>
    intro e he
    rw [setPool] at he
    obtain rfl := List.mem_singleton.1 he
    exact hm
  | cons e rest ih =>
    intro e2 he2
    by_cases he : e.1 = id
    · rw [setPool, if_pos he] at he2
      rcases List.mem_cons.1 he2 with rfl | h2
      · exact hm
      · exact h _ (List.mem_cons_of_mem _ h2)
    · rw [setPool, if_neg he] at he2
      rcases List.mem_cons.1 he2 with rfl | h2
      · exact h _ (List.mem_cons_self _ _)
      · exact ih (fun e3 he3 => h _ (List.mem_cons_of_mem _ he3)) _ h2

theorem poolWF_upsertOne (p : Pool) (f : Feature) (h : PoolWF p) :
    PoolWF (upsertOne p f) := by
  cases hid : idOf f with
  | none => rw [upsertOne_of_idOf_none p f hid]; exact h
  | some id =>
    obtain ⟨s, hp, hs, hne⟩ := idOf_eq_some_elim f id hid
    subst hs
    cases hm : plookup s.session_id p with
    | some m =>
      rw [upsertOne_existing p f s m hp hne hm]
      by_cases hpos : m.pos ≠ f.coord
      · rw [if_pos hpos]
        exact poolWF_setPool p _ _ h (h _ (plookup_mem p _ m hm))
      · rw [if_neg hpos]
        exact h
    | none =>
      rw [upsertOne_new p f s hp hne hm]
      exact poolWF_setPool p _ _ h rfl

theorem poolWF_foldl_upsertOne (fs : List Feature) (q : Pool) (h : PoolWF q) :
    PoolWF (fs.foldl upsertOne q) := by
  induction fs generalizing q with
  | nil => exact h
  | cons f fs ih => exact ih _ (poolWF_upsertOne q f h)

theorem poolWF_applyDiff (p : Pool) (fs : List Feature) (h : PoolWF p) :
    PoolWF (applyDiff p fs) :=
  poolWF_foldl_upsertOne fs _ (fun e he => h _ (List.mem_filter.1 he).1)

/-- A marker click never mutates the pool, only the tooltip state. -/
theorem clickMarker_pool (st : TLState) (id : String) :
    (clickMarker st id).pool = st.pool := by
  unfold clickMarker toggleTooltip
  split
  · rfl
  · split <;> rfl

/-- Every reachable state of the hook has a well-formed pool. -/
theorem reachable_poolWF (st : TLState) (h : Reachable st) : PoolWF st.pool := by
  induction h with
  | refl =>
    intro e he
    cases he
  | tail hr hstep ih =>
    rename_i b c
    cases hstep with
    | reconcile fs => exact poolWF_applyDiff _ _ ih
    | click id =>
      rw [clickMarker_pool]
      exact ih
    | timeChange => exact ih
    | mapClick => exact ih
    | detail => exact ih
    | teardown =>
      intro e he
      cases he

/-- The marker created for sampleA by a reconciliation pass. -/
def sampleMarkerA : Marker :=
  ⟨(round4 2, round4 1), (round4 2, round4 1), sampleA⟩

/-- The point feature built for sampleA. -/
def featA : Feature := mkFeature sampleA

/-- C5: whenever the view switches away from timeline, and whenever the
clustering mode flips between passes (shouldShowClusters is recomputed only
inside the effect body, so a flip forces an effect re-run whose cleanup runs
first), all markers are destroyed unconditionally: the previous pool is
cleared before the new body runs, the outcome of the cycle is independent of
the previous pool (no diff against the new visible set), and in the
non-timeline branch the pool stays empty. -/
theorem c5_mode_switch_destroys_all (st st2 : TLState) (mapView : String)
    (sessions sessions2 : List Session) (fs : List Feature)
    (hflip : ¬ shouldShowClusters sessions = shouldShowClusters sessions2
      ∨ ¬ mapView = "timeline")
    (hopen : st2.openId = st.openId) (hpos : st2.popupPos = st.popupPos) :
    (teardownEffect st).pool = [] ∧
    effectRerun st mapView fs = effectRerun st2 mapView fs ∧
    (¬ mapView = "timeline" → (effectRerun st mapView fs).pool = []) := by
  refine ⟨rfl, ?_, ?_⟩
  · cases st
    cases st2
    by_cases hv : mapView ≠ "timeline" <;>
      simp_all [effectRerun, teardownEffect, nonTimelineBody]
  · intro hv
    simp [effectRerun, teardownEffect, nonTimelineBody, hv]

/-- Witness for C5 at a concrete input: a one-marker pool, view switched to
another mode. -/
theorem c5_mode_switch_destroys_all_witness :
    (teardownEffect ⟨[("a", sampleMarkerA)], none, (0, 0)⟩).pool = [] ∧
    effectRerun ⟨[("a", sampleMarkerA)], none, (0, 0)⟩ "globe" [] =
      effectRerun ⟨[], none, (0, 0)⟩ "globe" [] ∧
    (¬ "globe" = "timeline" →
      (effectRerun ⟨[("a", sampleMarkerA)], none, (0, 0)⟩ "globe" []).pool = []) :=
  c5_mode_switch_destroys_all ⟨[("a", sampleMarkerA)], none, (0, 0)⟩
    ⟨[], none, (0, 0)⟩ "globe" [] [] [] (Or.inr (by decide)) rfl rfl

/-! ## C2: the tooltip/marker consistency claim -/

/-- State after the first reconciliation pass (pool = marker for sampleA). -/
def c2s1 : TLState := { initState with pool := applyDiff initState.pool [featA] }

/-- State after clicking sampleA's marker (its tooltip is now open). -/
def c2s2 : TLState := clickMarker c2s1 "a"

/-- State after a reconciliation pass with an empty visible set: the marker
is destroyed, but no code path closes the tooltip. -/
def c2s3 : TLState := { c2s2 with pool := applyDiff c2s2.pool [] }

/-- C2 counterexample: a reachable state in which the tooltip is recorded
open for "a" while no marker for "a" exists in the pool — the removal pass
(lines 422-431) destroys markers without closing the tooltip, so the
invariant "a recorded identifier always has a marker in the pool" fails. -/
theorem c2_counterexample_tooltip_without_marker :
    Reachable c2s3 ∧ c2s3.openId = some "a" ∧ plookup "a" c2s3.pool = none := by
  refine ⟨?_, rfl, rfl⟩
  exact Relation.ReflTransGen.tail
    (Relation.ReflTransGen.tail
      (Relation.ReflTransGen.single (TLStep.reconcile initState [featA]))
      (TLStep.click c2s1 "a"))
    (TLStep.reconcile c2s2 [])

/-- C2 amended: at most one identifier is recorded as having the tooltip
open, and an identifier becomes recorded only by clicking a marker that is
present in the pool at click time; but marker destruction does not close the
tooltip, so after a removal pass, view switch or unmount the recorded
identifier can outlive its marker (see the counterexample). -/
theorem c2_amended_tooltip_set_only_by_live_click (st st2 : TLState)
    (id : String) (hreach : Reachable st) (hstep : TLStep st st2)
    (hopen : st2.openId = some id) :
    (∀ id2, st2.openId = some id2 → id2 = id) ∧
    (st.openId = some id ∨ (plookup id st.pool).isSome = true) := by
  refine ⟨fun id2 h2 => by rw [hopen] at h2; exact (Option.some_inj.1 h2).symm, ?_⟩
  cases hstep with
  | reconcile fs => exact Or.inl hopen
  | click cid =>
    unfold clickMarker at hopen
    cases hm : plookup cid st.pool with
    | none =>
      rw [hm] at hopen
      exact Or.inl hopen
    | some m =>
      simp only [hm] at hopen
      unfold toggleTooltip at hopen
      by_cases hc : st.openId = some m.session.session_id
      · rw [if_pos hc] at hopen
        simp at hopen
      · rw [if_neg hc] at hopen
        have hsid : m.session.session_id = id := Option.some_inj.1 hopen
        have hkey : m.session.session_id = cid :=
          reachable_poolWF st hreach _ (plookup_mem st.pool cid m hm)
        refine Or.inr ?_
        rw [← hsid, hkey, hm]
        rfl
  | timeChange => cases hopen
  | mapClick => cases hopen
  | detail => cases hopen
  | teardown => exact Or.inl hopen

/-- Witness for C2 amended at a concrete input: the click that opens the
tooltip for "a" happens while sampleA's marker is pooled. -/
theorem c2_amended_tooltip_set_only_by_live_click_witness :
    c2s1.openId = some "a" ∨ (plookup "a" c2s1.pool).isSome = true :=
  (c2_amended_tooltip_set_only_by_live_click c2s1 c2s2 "a"
    (Relation.ReflTransGen.single (TLStep.reconcile initState [featA]))
    (TLStep.click c2s1 "a") rfl).2

/-! ## C9: tooltip toggling -/

/-- A state holding exactly sampleA's marker, tooltip closed. -/
def stateWithMarkerA : TLState := ⟨applyDiff [] [featA], none, (0, 0)⟩

/-- C9: clicking the marker of session s when no tooltip is open opens the
tooltip for s at s's rendered coordinates (round4 lon, round4 lat — the
coordinate the marker's click closure captured at creation); clicking it
while its own tooltip is open closes the tooltip and records no identifier;
clicking it while another session's tooltip is open replaces that tooltip
with one for s at s's rendered coordinates. -/
theorem c9_tooltip_toggle (st : TLState) (s : Session) (m : Marker)
    (hm : plookup s.session_id st.pool = some m) (hsess : m.session = s)
    (hcreated : m.createdAt = (round4 (s.lon.getD 0), round4 (s.lat.getD 0))) :
    (st.openId = none →
      (clickMarker st s.session_id).openId = some s.session_id ∧
      (clickMarker st s.session_id).popupPos
        = (round4 (s.lon.getD 0), round4 (s.lat.getD 0))) ∧
    (st.openId = some s.session_id →
      (clickMarker st s.session_id).openId = none) ∧
    (∀ other, st.openId = some other → ¬ other = s.session_id →
      (clickMarker st s.session_id).openId = some s.session_id ∧
      (clickMarker st s.session_id).popupPos
        = (round4 (s.lon.getD 0), round4 (s.lat.getD 0))) := by
  have hred : clickMarker st s.session_id = toggleTooltip st m := by
    unfold clickMarker
    rw [hm]
  rw [hred]
  unfold toggleTooltip
  rw [hsess, hcreated]
  refine ⟨?_, ?_, ?_⟩
  · intro hnone
    rw [hnone]
    rw [if_neg (by intro hh; cases hh)]
    exact ⟨rfl, rfl⟩
  · intro hopen
    rw [if_pos hopen]
  · intro other hother hne
    rw [hother]
    rw [if_neg (by intro hh; exact hne (Option.some_inj.1 hh))]
    exact ⟨rfl, rfl⟩

/-- Witness for C9 at a concrete input: clicking sampleA's pooled marker with
the tooltip closed opens it for "a" at sampleA's rendered coordinates. -/
theorem c9_tooltip_toggle_witness :
    (clickMarker stateWithMarkerA "a").openId = some "a" ∧
    (clickMarker stateWithMarkerA "a").popupPos = (round4 2, round4 1) :=
  (c9_tooltip_toggle stateWithMarkerA sampleA sampleMarkerA rfl rfl rfl).1 rfl

/-- C7: for a visible cluster feature with point count c ≥ 1, a leaf fetch is
issued (and its leaves substituted into the unclustered set) iff c < 10; a
cluster with c ≥ 10 issues no fetch, contributes nothing to the unclustered
feature set (hence no individual markers), and passes the cluster-circle
layer filter (it stays rendered as an aggregate circle). -/
theorem c7_small_cluster_threshold (env : Env) (cid pc : Nat) (q : ℚ × ℚ)
    (h : 0 < pc) :
    (((cid, pc) ∈ smallClustersOf [mkClusterFeature cid pc q]) ↔ pc < 10) ∧
    (10 ≤ pc →
      smallClustersOf [mkClusterFeature cid pc q] = [] ∧
      fullCollected env [mkClusterFeature cid pc q] = [] ∧
      clusterCircleFilter (mkClusterFeature cid pc q) = true) := by
  have hne : pc ≠ 0 := Nat.pos_iff_ne_zero.mp h
  constructor
  · by_cases hlt : pc < 10
    · simp [smallClustersOf, mkClusterFeature, hlt, hne]
    · simp [smallClustersOf, mkClusterFeature, hlt, hne]
  · intro hge
    have hlt : ¬ pc < 10 := Nat.not_lt.mpr hge
    refine ⟨?_, ?_, ?_⟩
    · simp [smallClustersOf, mkClusterFeature, hlt]
    · simp [fullCollected, pointFeaturesOf, smallClustersOf, mkClusterFeature, hlt]
    · simp only [clusterCircleFilter, mkClusterFeature, decide_eq_true_eq]
      exact hge

/-- Witness for C7 at a concrete input: a cluster of 12 points. -/
theorem c7_small_cluster_threshold_witness :
    (((1, 12) ∈ smallClustersOf [mkClusterFeature 1 12 (0, 0)]) ↔ 12 < 10) ∧
    (10 ≤ 12 →
      smallClustersOf [mkClusterFeature 1 12 (0, 0)] = [] ∧
      fullCollected envErr [mkClusterFeature 1 12 (0, 0)] = [] ∧
      clusterCircleFilter (mkClusterFeature 1 12 (0, 0)) = true) :=
  c7_small_cluster_threshold envErr 1 12 (0, 0) (by decide)

/-- C10: a failed (or empty) leaf fetch neither raises nor retries — the
affected cluster is simply omitted and the pass completes, applying exactly
the diff it would apply without that cluster; and a failed expansion-zoom
query (or a click resolving no rendered cluster feature) leaves the camera
untouched. -/
theorem c10_failed_queries_degrade_gracefully (env : Env) (cid pc : Nat)
    (q : ℚ × ℚ) (fs1 fs2 : List Feature) (p : Pool)
    (zoomOf : Nat → Option ℚ) (cam : Camera) (rest : List Feature)
    (herr : env cid = LeafResult.err) (hz : zoomOf cid = none) :
    updateMarkersClustered env (fs1 ++ [mkClusterFeature cid pc q] ++ fs2) p
      = updateMarkersClustered env (fs1 ++ fs2) p ∧
    handleClusterClick (mkClusterFeature cid pc q :: rest) zoomOf cam = cam ∧
    handleClusterClick [] zoomOf cam = cam := by
  refine ⟨?_, ?_, rfl⟩
  · have hcol : fullCollected env (fs1 ++ [mkClusterFeature cid pc q] ++ fs2)
        = fullCollected env (fs1 ++ fs2) := by
      by_cases hsc : pc ≠ 0 ∧ pc < 10 <;>
        simp [fullCollected, pointFeaturesOf, smallClustersOf, mkClusterFeature,
          List.filter_append, List.filterMap_append, List.flatMap_append,
          hsc, resultOf, herr]
    unfold updateMarkersClustered
    rw [hcol]
  · simp [handleClusterClick, mkClusterFeature, hz]

/-- Witness for C10 at a concrete input: every fetch errors, the zoom query
errors, one point feature remains. -/
theorem c10_failed_queries_degrade_gracefully_witness :
    updateMarkersClustered envErr ([featA] ++ [mkClusterFeature 1 2 (5, 5)] ++ []) []
      = updateMarkersClustered envErr ([featA] ++ []) [] ∧
    handleClusterClick (mkClusterFeature 1 2 (5, 5) :: []) (fun _ => none)
      ⟨(0, 0), 1⟩ = ⟨(0, 0), 1⟩ ∧
    handleClusterClick [] (fun _ => none) ⟨(0, 0), 1⟩ = ⟨(0, 0), 1⟩ :=
  c10_failed_queries_degrade_gracefully envErr 1 2 (5, 5) [featA] [] []
    (fun _ => none) ⟨(0, 0), 1⟩ [] rfl rfl

/-- C8: along any interleaving of callback resolutions within one clustered
updateMarkers pass, the pool is not mutated while the pass is unapplied
(it still equals the pool at issuance time), and the single apply step —
which can only run once every issued fetch has resolved — applies the full
diff for the completely materialized leaf set: the collected features at
apply time are a permutation of the pass's full visible feature list. -/
theorem c8_no_mutation_before_all_fetches_resolve (env : Env)
    (fs : List Feature) (p : Pool) (s : PassState)
    (h : Relation.ReflTransGen (PassStep env) (initPass fs p) s) :
    (s.applied = false → s.pool = p ∧
      (s.collected ++ s.pending.flatMap (resultOf env)).Perm
        (fullCollected env fs)) ∧
    (s.applied = true → s.pending = [] ∧ s.pool = applyDiff p s.collected ∧
      s.collected.Perm (fullCollected env fs)) := by
  induction h with
  | refl =>
    refine ⟨fun _ => ⟨rfl, ?_⟩, fun htrue => by cases htrue⟩
    exact List.Perm.refl _
  | tail hr hstep ih =>
    rename_i b c
    cases hstep with
    | resolve l1 l2 cl hpend =>
      constructor
      · intro hap
        have hbap : b.applied = false := hap
        obtain ⟨hpool, hperm⟩ := ih.1 hbap
        refine ⟨hpool, ?_⟩
        rw [hpend, List.flatMap_append, List.flatMap_cons] at hperm
        have p1 : (resultOf env cl
              ++ (l1.flatMap (resultOf env) ++ l2.flatMap (resultOf env))).Perm
            (l1.flatMap (resultOf env)
              ++ (resultOf env cl ++ l2.flatMap (resultOf env))) := by
          rw [← List.append_assoc, ← List.append_assoc]
          exact List.perm_append_comm.append_right _
        have p2 : ((b.collected ++ resultOf env cl)
              ++ (l1 ++ l2).flatMap (resultOf env)).Perm
            (b.collected ++ (l1.flatMap (resultOf env)
              ++ (resultOf env cl ++ l2.flatMap (resultOf env)))) := by
          rw [List.flatMap_append, List.append_assoc]
          exact List.Perm.append_left _ p1
        exact p2.trans hperm
      · intro hap
        have hbap : b.applied = true := hap
        obtain ⟨hpendnil, -, -⟩ := ih.2 hbap
        rw [hpendnil] at hpend
        cases l1 <;> cases hpend
    | apply hp hna =>
      constructor
      · intro hap
        cases hap
      · intro hap
        obtain ⟨hpool, hperm⟩ := ih.1 hna
        rw [hp] at hperm
        refine ⟨rfl, ?_, ?_⟩
        · rw [hpool]
        · simpa using hperm

/-- A small-cluster feature (cluster id 1, 2 points). -/
def clFeatB : Feature := mkClusterFeature 1 2 (5, 5)

/-- Feature snapshot for the concrete pass runs: one point, one small cluster. -/
def fs8 : List Feature := [featA, clFeatB]

/-- Concrete pass: state after the single fetch resolves. -/
def pass8s1 : PassState :=
  ⟨[] ++ [], (initPass fs8 []).collected ++ resultOf envB (1, 2),
    (initPass fs8 []).pool, (initPass fs8 []).applied⟩

/-- Concrete pass: state after the apply step. -/
def pass8s2 : PassState :=
  ⟨[], pass8s1.collected, applyDiff pass8s1.pool pass8s1.collected, true⟩

/-- Witness for C8 at a concrete run: resolve the one fetch, then apply. -/
theorem c8_no_mutation_before_all_fetches_resolve_witness :
    pass8s2.pending = [] ∧ pass8s2.pool = applyDiff [] pass8s2.collected ∧
    pass8s2.collected.Perm (fullCollected envB fs8) :=
  (c8_no_mutation_before_all_fetches_resolve envB fs8 [] pass8s2
    (Relation.ReflTransGen.tail
      (Relation.ReflTransGen.single
        (PassStep.resolve (initPass fs8 []) [] [] (1, 2) rfl))
      (PassStep.apply pass8s1 rfl rfl))).2 rfl

/-! ## C6: teardown racing a suspended pass -/

/-- Concrete interleaving: the pass is issued over one small cluster. -/
def c6s0 : PassState := initPass [clFeatB] []

/-- Teardown runs while the fetch is still pending: the pool is cleared. -/
def c6s1 : PassState := ⟨c6s0.pending, c6s0.collected, [], c6s0.applied⟩

/-- The fetch then resolves (pool untouched). -/
def c6s2 : PassState :=
  ⟨[] ++ [], c6s1.collected ++ resultOf envB (1, 2), c6s1.pool, c6s1.applied⟩

/-- The suspended continuation then applies its diff to the cleared pool. -/
def c6s3 : PassState :=
  ⟨[], c6s2.collected, applyDiff c6s2.pool c6s2.collected, true⟩

/-- C6 counterexample: an interleaving in which teardown runs between fetch
issuance and the apply step, yet the pool is NOT empty after the late apply —
the continuation runs its upsert pass against the cleared (but live) pool and
re-creates markers, because nothing in the apply path consults the detached
subscriptions. -/
theorem c6_counterexample_late_apply_repopulates :
    Relation.ReflTransGen (TearStep envB) c6s0 c6s3 ∧
    ¬ c6s0.pending = [] ∧ c6s1.pool = [] ∧ c6s3.applied = true ∧
    ¬ c6s3.pool = [] := by
  refine ⟨?_, by decide, rfl, rfl, by decide⟩
  exact Relation.ReflTransGen.tail
    (Relation.ReflTransGen.tail
      (Relation.ReflTransGen.single (TearStep.teardown c6s0))
      (TearStep.pass c6s1 c6s2 (PassStep.resolve c6s1 [] [] (1, 2) rfl)))
    (TearStep.pass c6s2 c6s3 (PassStep.apply c6s2 rfl rfl))

/-- C6 amended: teardown synchronously clears the pool and detaches the event
subscriptions (preventing any future event-triggered pass), but it does not
stop a pass already suspended at its fetches: when that pass's apply step
later runs, it mutates the pool, leaving exactly one marker per identifier of
its collected visible features — the pool does not remain empty. -/
theorem c6_amended_late_apply_mutates_cleared_pool (env : Env)
    (fs : List Feature) (p : Pool) (s s2 : PassState)
    (hreach : Relation.ReflTransGen (TearStep env) (initPass fs p) s)
    (h1 : s.applied = false) (hstep : TearStep env s s2)
    (h2 : s2.applied = true) :
    s2.pool = applyDiff s.pool s.collected ∧
    ∀ id, (plookup id s2.pool).isSome = true ↔ id ∈ sessionIdsOf s.collected := by
  have hpool : s2.pool = applyDiff s.pool s.collected := by
    cases hstep with
    | pass =>
      rename_i hp
      cases hp with
      | resolve l1 l2 c hpend =>
        have h2x : s.applied = true := h2
        rw [h1] at h2x
        exact Bool.noConfusion h2x
      | apply hp hna => rfl
    | teardown =>
      have h2x : s.applied = true := h2
      rw [h1] at h2x
      exact Bool.noConfusion h2x
  refine ⟨hpool, fun id => ?_⟩
  rw [hpool, plookup_isSome_iff_mem_keys, mem_keys_applyDiff]

/-- Witness for C6 amended at the concrete interleaving above. -/
theorem c6_amended_late_apply_mutates_cleared_pool_witness :
    c6s3.pool = applyDiff c6s2.pool c6s2.collected ∧
    ((plookup "b" c6s3.pool).isSome = true ↔ "b" ∈ sessionIdsOf c6s2.collected) :=
  have h := c6_amended_late_apply_mutates_cleared_pool envB [clFeatB] [] c6s2 c6s3
    (Relation.ReflTransGen.tail
      (Relation.ReflTransGen.single (TearStep.teardown c6s0))
      (TearStep.pass c6s1 c6s2 (PassStep.resolve c6s1 [] [] (1, 2) rfl)))
    rfl (TearStep.pass c6s2 c6s3 (PassStep.apply c6s2 rfl rfl)) rfl
  ⟨h.1, h.2 "b"⟩

end Timeline
